import Mathlib

/-!
Shallow embedding of the MMM-WeatherForecastGraph node helper
(`node_helper.js`): duration decoding, time-series expansion, hourly
sampling, precipitation period extraction and merging, unit conversion,
and the fetch retry loop.  JavaScript numbers are modelled as exact
rationals (`ℚ`), instants as integer milliseconds (`Int`), and
`null`/`undefined` as `Option.none`.  Date-string parsing
(`new Date(s)`) is abstracted as a parameter `dateOf : String → Int`;
`startHour.setMinutes(0, 0, 0)` is modelled as flooring the instant to
the hour (exact for a whole-hour timezone).
-/

set_option linter.unusedVariables false

namespace WeatherGraph

/-- `Math.round`: round half toward positive infinity. -/
def jsRound (q : ℚ) : Int := ⌊q + 1/2⌋

/-- The measurement system from `config.units`. -/
inductive Units where
  | imperial
  | metric
deriving DecidableEq, Repr

/-- The `type` tag attached to a precipitation period. -/
inductive PKind where
  | rain
  | snow
deriving DecidableEq, Repr

/-- JS `x > 0` on a possibly-`null` number: `null > 0` is `false`. -/
def optPosB : Option ℚ → Bool
  | none => false
  | some q => decide (0 < q)

/-- `celsiusToFahrenheit`: `null`/`undefined` propagates, otherwise
`Math.round(c * 9 / 5 + 32)`. -/
def celsiusToFahrenheit : Option ℚ → Option Int
  | none => none
  | some c => some (jsRound (c * 9 / 5 + 32))

/-- `kphToMph`: `null`/`undefined` propagates, otherwise
`Math.round(kph * 0.621371)`. -/
def kphToMph : Option ℚ → Option Int
  | none => none
  | some k => some (jsRound (k * (0.621371 : ℚ)))

/-- `mmToInches`: `null`/`undefined` propagates, otherwise
`Math.round(mm * 0.0393701 * 100) / 100`. -/
def mmToInches : Option ℚ → Option ℚ
  | none => none
  | some mm => some ((jsRound (mm * (0.0393701 : ℚ) * 100) : ℚ) / 100)

/-- `Math.round` applied to a possibly-`null` value, as the metric
branches of `processWeatherData` do: JS coerces `null` to `0` before
rounding. -/
def mathRoundJS (v : Option ℚ) : Option Int :=
  some (jsRound (match v with | none => 0 | some x => x))

/-! ### Duration Decoder (`parseDuration`)

`duration.match(/PT(\d+)H/)` searches for the leftmost occurrence of
`PT`, one or more decimal digits, then `H`; on a match it returns
`parseInt` of the digit group, otherwise `1`. -/

/-- Decimal value of a big-endian digit-character list (the semantics of
`parseInt(digits, 10)`). -/
def digitsVal (l : List Char) : Nat :=
  l.foldl (fun acc c => acc * 10 + (c.toNat - 48)) 0

/-- Attempt to match the regex `PT(\d+)H` at the head of the character
list, returning the decoded digit group (`\d+` is greedy and `H` is not
a digit, so only the maximal digit run can be followed by `H`). -/
def tryPTH : List Char → Option Nat
  | c₁ :: c₂ :: rest =>
    if c₁ = 'P' ∧ c₂ = 'T' then
      match rest.takeWhile Char.isDigit with
      | [] => none
      | d :: ds =>
        match rest.dropWhile Char.isDigit with
        | c₃ :: _ => if c₃ = 'H' then some (digitsVal (d :: ds)) else none
        | [] => none
    else none
  | _ => none

/-- Leftmost match of `PT(\d+)H` over the whole character list. -/
def scanPTH : List Char → Option Nat
  | [] => none
  | c :: rest =>
    match tryPTH (c :: rest) with
    | some n => some n
    | none => scanPTH rest

/-- `parseDuration`: `duration.match(/PT(\d+)H/)`; the digit group on a
match, else `1`. -/
def parseDuration (s : String) : Nat :=
  (scanPTH s.data).getD 1

/-! ### Raw records, expansion and sampling -/

/-- One entry of a raw quantity series:
`{validTime: "<ISO start>/<duration>", value: number}`; either field may
be absent or `null`. -/
structure RawRecord where
  validTime : Option String
  value : Option ℚ
deriving DecidableEq, Repr

/-- JS truthiness of `item.validTime`: absent/`null` and the empty
string are falsy. -/
def jsTruthyStr : Option String → Bool
  | none => false
  | some s => decide (s ≠ "")

/-- JS `s.split("/")` on the character list of `s`. -/
def splitOnSlash : List Char → List (List Char)
  | [] => [[]]
  | c :: rest =>
    if c = '/' then [] :: splitOnSlash rest
    else
      match splitOnSlash rest with
      | [] => [[c]]
      | h :: t => (c :: h) :: t

/-- `item.validTime.split("/")[0]` (the start-instant string). -/
def startStrOf (item : RawRecord) : String :=
  String.mk ((splitOnSlash (item.validTime.getD "").data).getD 0 [])

/-- `item.validTime.split("/")[1]` (the duration string), `none` when
the split has no second component (JS `undefined`). -/
def durStrOf (item : RawRecord) : Option String :=
  ((splitOnSlash (item.validTime.getD "").data).get? 1).map String.mk

/-- One expanded `{time, value}` sample. -/
structure Sample where
  time : Int
  value : Option ℚ
deriving DecidableEq, Repr

/-- Expansion of a single record inside `expandTimeSeries`: skipped
records contribute `[]`; a record whose `validTime` has no `/`
component makes `parseDuration(undefined)` throw a `TypeError`,
modelled as `none`. -/
def expandRecord (dateOf : String → Int) (item : RawRecord) :
    Option (List Sample) :=
  if jsTruthyStr item.validTime = false then some []
  else
    match durStrOf item with
    | none => none
    | some durationStr =>
      let startTime := dateOf (startStrOf item)
      let hours := parseDuration durationStr
      some ((List.range hours).map fun h : Nat =>
        ⟨startTime + (h : Int) * 3600000, item.value⟩)

/-- `expandTimeSeries`: concatenate each record's expansion in order;
the first throwing record aborts the whole pass. -/
def expandTimeSeries (dateOf : String → Int) :
    List RawRecord → Option (List Sample)
  | [] => some []
  | item :: rest => do
    let block ← expandRecord dateOf item
    let tail ← expandTimeSeries dateOf rest
    pure (block ++ tail)

/-- `findValueAtTime`: first sample whose `[time, time + 1h)` interval
contains the target; otherwise the value of the last sample whose
instant is ≤ target; `null` when no sample qualifies. -/
def findValueAtTime (expandedValues : List Sample) (targetTime : Int) :
    Option ℚ :=
  match expandedValues.find? (fun it =>
      decide (it.time ≤ targetTime) && decide (targetTime < it.time + 3600000)) with
  | some it => it.value
  | none =>
    expandedValues.foldl
      (fun closest it => if it.time ≤ targetTime then it.value else closest)
      none

/-! ### Hourly sample construction (`processWeatherData` loop body) -/

/-- One element of the `hourly` array pushed by `processWeatherData`. -/
structure HourlyEntry where
  dt : Int
  temp : Option Int
  feels_like : Option Int
  wind_speed : Option Int
  wind_gust : Option Int
  pop : ℚ
deriving DecidableEq, Repr

/-- The body of the `hourly.push({...})` call for one target hour,
given the five sampled raw values. -/
def buildHourlyEntry (units : Units) (targetTime : Int)
    (temp feelsLike windSpeed windGust pop : Option ℚ) : HourlyEntry :=
  { dt := targetTime.fdiv 1000
    temp := if units = Units.imperial then celsiusToFahrenheit temp
            else mathRoundJS temp
    feels_like := if units = Units.imperial then celsiusToFahrenheit feelsLike
                  else mathRoundJS feelsLike
    wind_speed := if units = Units.imperial then kphToMph windSpeed
                  else mathRoundJS windSpeed
    wind_gust := if units = Units.imperial then kphToMph windGust
                 else mathRoundJS windGust
    pop := match pop with | some p => p / 100 | none => 0 }

/-- The full `hourly`-building loop of `processWeatherData`. -/
def buildHourly (units : Units) (startHour : Int) (hoursToShow : Nat)
    (tempValues feelsLikeValues windSpeedValues windGustValues popValues :
      List Sample) : List HourlyEntry :=
  (List.range hoursToShow).map fun i =>
    let targetTime := startHour + (i : Int) * 3600000
    buildHourlyEntry units targetTime
      (findValueAtTime tempValues targetTime)
      (findValueAtTime feelsLikeValues targetTime)
      (findValueAtTime windSpeedValues targetTime)
      (findValueAtTime windGustValues targetTime)
      (findValueAtTime popValues targetTime)

/-! ### Precipitation Period Extractor (`extractPrecipitationPeriods`) -/

/-- A precipitation period object pushed by
`extractPrecipitationPeriods`. -/
structure Period where
  startIndex : Int
  endIndex : Int
  amount_mm : Option ℚ
  amount : Option ℚ
  displayThreshold : ℚ
  units : Units
  type : PKind
deriving DecidableEq, Repr

/-- `startHour.setMinutes(0, 0, 0)`: floor the instant (ms) to the hour
boundary (exact for a whole-hour timezone). -/
def startHourOf (now : Int) : Int :=
  now - now % 3600000

/-- The rain/snow display threshold chosen by the extractor. -/
def displayThresholdFor (type : PKind) (units : Units) : ℚ :=
  if type = PKind.snow then
    (if units = Units.imperial then (0.1 : ℚ) else (2.5 : ℚ))
  else
    (if units = Units.imperial then (0.01 : ℚ) else (0.25 : ℚ))

/-- The loop body of `extractPrecipitationPeriods` for one record:
`[]` when skipped (falsy `validTime`, `value === 0`, or outside the
display window), `none` when `parseDuration(undefined)` throws. -/
def extractRecord (dateOf : String → Int) (startHour endTime : Int)
    (units : Units) (type : PKind) (item : RawRecord) :
    Option (List Period) :=
  if jsTruthyStr item.validTime = false || item.value == some 0 then some []
  else
    match durStrOf item with
    | none => none
    | some durationStr =>
      let periodStart := dateOf (startStrOf item)
      let hours := parseDuration durationStr
      let periodEnd := periodStart + (hours : Int) * 3600000
      if periodEnd ≤ startHour ∨ endTime ≤ periodStart then some []
      else
        let displayStart := max periodStart startHour
        let displayEnd := min periodEnd endTime
        let startIndex := (displayStart - startHour).fdiv 3600000
        let endIndex := (displayEnd - startHour).fdiv 3600000
        let amount := if units = Units.imperial then mmToInches item.value
                      else item.value
        some [{ startIndex := startIndex
                endIndex := endIndex
                amount_mm := item.value
                amount := amount
                displayThreshold := displayThresholdFor type units
                units := units
                type := type }]

/-- The `for (const item of values)` loop of
`extractPrecipitationPeriods`, accumulating pushed periods in order;
the first throwing record aborts the whole pass. -/
def extractLoop (dateOf : String → Int) (startHour endTime : Int)
    (units : Units) (type : PKind) : List RawRecord → Option (List Period)
  | [] => some []
  | item :: rest => do
    let block ← extractRecord dateOf startHour endTime units type item
    let tail ← extractLoop dateOf startHour endTime units type rest
    pure (block ++ tail)

/-- `extractPrecipitationPeriods(values, now, hoursToShow, units, type)`. -/
def extractPrecipitationPeriods (dateOf : String → Int)
    (values : List RawRecord) (now : Int) (hoursToShow : Nat)
    (units : Units) (type : PKind) : Option (List Period) :=
  extractLoop dateOf (startHourOf now)
    (startHourOf now + (hoursToShow : Int) * 3600000) units type values

/-! ### Precipitation Period Merger (`mergePrecipitationPeriods`) -/

/-- The `snowByStart` map: `Map.set` overwrites, so a lookup returns the
last snow period carrying the given `startIndex`. -/
def snowByStart (snowPeriods : List Period) (idx : Int) : Option Period :=
  (snowPeriods.filter (fun p => p.startIndex == idx)).getLast?

/-- The freezing threshold: 32 °F (imperial) or 0 °C (metric). -/
def freezingPointOf (units : Units) : Int :=
  if units = Units.imperial then 32 else 0

/-- `hourly[idx]?.temp`: `undefined` for an out-of-range index,
otherwise the entry's (possibly `null`) `temp` field. -/
def hourlyTempAt (hourly : List HourlyEntry) (idx : Int) : Option Int :=
  if h : 0 ≤ idx then (hourly.get? idx.toNat).bind (fun e => e.temp)
  else none

/-- `temp !== null && temp !== undefined && temp <= freezingPoint`. -/
def isFreezingAt (hourly : List HourlyEntry) (units : Units) (idx : Int) :
    Bool :=
  match hourlyTempAt hourly idx with
  | none => false
  | some t => decide (t ≤ freezingPointOf units)

/-- One iteration of the `rainPeriods.forEach` loop, accumulating the
`merged` list and the `usedSnowIndices` set. -/
def mergeStep (snowPeriods : List Period) (hourly : List HourlyEntry)
    (units : Units) (acc : List Period × List Int) (rain : Period) :
    List Period × List Int :=
  let rainCase : List Period × List Int :=
    if optPosB rain.amount &&
        !(isFreezingAt hourly units rain.startIndex) then
      (acc.1 ++ [rain], acc.2)
    else (acc.1, acc.2)
  match snowByStart snowPeriods rain.startIndex with
  | some snow =>
    if optPosB snow.amount then (acc.1 ++ [snow], acc.2 ++ [rain.startIndex])
    else rainCase
  | none => rainCase

/-- `mergePrecipitationPeriods(rainPeriods, snowPeriods, hourly, units)`. -/
def mergePrecipitationPeriods (rainPeriods snowPeriods : List Period)
    (hourly : List HourlyEntry) (units : Units) : List Period :=
  let folded := rainPeriods.foldl (mergeStep snowPeriods hourly units) ([], [])
  folded.1 ++ snowPeriods.filter (fun snow =>
    !(folded.2.contains snow.startIndex) && optPosB snow.amount)

/-! ### Fetch Orchestrator retry loop (`fetchData`)

The `try`/`catch` plus `setTimeout` chain is modelled as a pure
recursion over the per-attempt outcomes (`true` = the attempt threw).
Each emitted event records what the invocation did, in order. -/

/-- `maxRetries` field of the node helper. -/
def maxRetries : Nat := 3

/-- `retryDelayMs` field of the node helper. -/
def retryDelayMs : Nat := 5000

/-- Observable events of one `fetchData` invocation chain. -/
inductive FetchEvent where
  | dataDelivery
  | errorDelivery
  | retryWait (delayMs : Nat)
deriving DecidableEq, Repr

/-- `fetchData(instanceId, retryCount)` given the outcome of each
attempt (`attemptFails n = true` means the attempt with
`retryCount = n` throws): success sends one `WEATHER_GRAPH_DATA`;
failure either schedules a retry after `retryDelayMs * 2 ^ retryCount`
or, once `retryCount` reaches `maxRetries`, sends one
`WEATHER_GRAPH_ERROR`. -/
def fetchData (attemptFails : Nat → Bool) (retryCount : Nat) :
    List FetchEvent :=
  if attemptFails retryCount then
    if h : retryCount < maxRetries then
      FetchEvent.retryWait (retryDelayMs * 2 ^ retryCount) ::
        fetchData attemptFails (retryCount + 1)
    else [FetchEvent.errorDelivery]
  else [FetchEvent.dataDelivery]
termination_by maxRetries + 1 - retryCount
decreasing_by omega

/-- Number of data deliveries in an event list. -/
def dataCount (events : List FetchEvent) : Nat :=
  events.count FetchEvent.dataDelivery

/-- Number of error deliveries in an event list. -/
def errorCount (events : List FetchEvent) : Nat :=
  events.count FetchEvent.errorDelivery

/-! ### Specification-level helpers and concrete example inputs -/

/-- The character of a decimal digit. -/
def digitChar (d : Nat) : Char := Char.ofNat (48 + d)

/-- Canonical decimal rendering of a natural number as characters. -/
def natChars (n : Nat) : List Char :=
  if n = 0 then ['0'] else ((Nat.digits 10 n).map digitChar).reverse

/-- What one iteration of the merger's rain loop appends to `merged`
(the per-rain push is independent of the accumulated state). -/
def pushOf (snowPeriods : List Period) (hourly : List HourlyEntry)
    (units : Units) (rain : Period) : List Period :=
  match snowByStart snowPeriods rain.startIndex with
  | some snow =>
    if optPosB snow.amount then [snow]
    else if optPosB rain.amount &&
        !(isFreezingAt hourly units rain.startIndex) then [rain]
    else []
  | none =>
    if optPosB rain.amount &&
        !(isFreezingAt hourly units rain.startIndex) then [rain]
    else []

/-- What one iteration of the merger's rain loop appends to
`usedSnowIndices`. -/
def usedOf (snowPeriods : List Period) (rain : Period) : List Int :=
  match snowByStart snowPeriods rain.startIndex with
  | some snow => if optPosB snow.amount then [rain.startIndex] else []
  | none => []

/-- A rain period at `startIndex` 5 with positive amount. -/
def rEx : Period := ⟨5, 6, some 1, some 1, 1, Units.imperial, PKind.rain⟩

/-- A snow period at `startIndex` 5 with positive amount. -/
def sEx : Period := ⟨5, 6, some 1, some 1, 1, Units.imperial, PKind.snow⟩

/-- A second, distinct snow period also at `startIndex` 5. -/
def sEx' : Period := ⟨5, 7, some 1, some 1, 1, Units.imperial, PKind.snow⟩

/-- A rain period at `startIndex` 0 with positive amount. -/
def rEx0 : Period := ⟨0, 1, some 1, some 1, 1, Units.imperial, PKind.rain⟩

/-- Expanded samples at hours 0 and 6 valued 10 and 20. -/
def demoSamples : List Sample := [⟨0, some 10⟩, ⟨21600000, some 20⟩]

/-- A filler hourly entry with a warm temperature. -/
def hourlyWarm : HourlyEntry := ⟨0, some 50, none, none, none, 0⟩

/-- An hourly entry whose temperature is 30 (°F). -/
def hourlyCold : HourlyEntry := ⟨0, some 30, none, none, none, 0⟩

/-- Six hourly entries whose index-5 temperature is 30 (°F). -/
def hourlyEx : List HourlyEntry :=
  [hourlyWarm, hourlyWarm, hourlyWarm, hourlyWarm, hourlyWarm, hourlyCold]

/-- A well-formed raw record spanning two hours. -/
def recA : RawRecord := ⟨some "A/PT2H", some 5⟩

/-- A well-formed raw record spanning three hours with a `null` value. -/
def recB : RawRecord := ⟨some "B/PT3H", none⟩

/-- A raw record carrying a negative precipitation value. -/
def recNeg : RawRecord := ⟨some "A/PT2H", some (-1)⟩

/-- Attempt outcomes: the first three attempts fail, the fourth
succeeds. -/
def failsThree : Nat → Bool := fun i => decide (i < 3)

/-! ## Merger characterization lemmas -/

theorem mergeStep_eq (snowPeriods : List Period) (hourly : List HourlyEntry)
    (units : Units) (acc : List Period × List Int) (rain : Period) :
    mergeStep snowPeriods hourly units acc rain =
      (acc.1 ++ pushOf snowPeriods hourly units rain,
       acc.2 ++ usedOf snowPeriods rain) := by
  simp only [mergeStep, pushOf, usedOf]
  cases h : snowByStart snowPeriods rain.startIndex with
  | none =>
    by_cases hc : (optPosB rain.amount &&
        !(isFreezingAt hourly units rain.startIndex)) = true
    · simp [hc]
    · simp only [Bool.not_eq_true] at hc
      simp [hc]
  | some snow =>
    by_cases hpos : optPosB snow.amount = true
    · simp [hpos]
    · simp only [Bool.not_eq_true] at hpos
      by_cases hc : (optPosB rain.amount &&
          !(isFreezingAt hourly units rain.startIndex)) = true
      · simp [hpos, hc]
      · simp only [Bool.not_eq_true] at hc
        simp [hpos, hc]

theorem merge_foldl_eq (snowPeriods : List Period) (hourly : List HourlyEntry)
    (units : Units) :
    ∀ (rainPeriods : List Period) (acc : List Period × List Int),
      rainPeriods.foldl (mergeStep snowPeriods hourly units) acc =
        (acc.1 ++ rainPeriods.flatMap (pushOf snowPeriods hourly units),
         acc.2 ++ rainPeriods.flatMap (usedOf snowPeriods))
  | [], acc => by simp
  | rain :: rest, acc => by
    rw [List.foldl_cons, mergeStep_eq,
      merge_foldl_eq snowPeriods hourly units rest]
    simp [List.append_assoc]

theorem merge_eq (rainPeriods snowPeriods : List Period)
    (hourly : List HourlyEntry) (units : Units) :
    mergePrecipitationPeriods rainPeriods snowPeriods hourly units =
      rainPeriods.flatMap (pushOf snowPeriods hourly units) ++
        snowPeriods.filter (fun snow =>
          !((rainPeriods.flatMap (usedOf snowPeriods)).contains
              snow.startIndex) && optPosB snow.amount) := by
  simp only [mergePrecipitationPeriods]
  rw [merge_foldl_eq]
  simp

theorem snowByStart_mem {snowPeriods : List Period} {idx : Int} {p : Period}
    (h : snowByStart snowPeriods idx = some p) :
    p ∈ snowPeriods ∧ p.startIndex = idx := by
  unfold snowByStart at h
  obtain ⟨ys, hys⟩ := List.getLast?_eq_some_iff.mp h
  have hp : p ∈ snowPeriods.filter (fun q => q.startIndex == idx) := by
    rw [hys]; simp
  have hm := List.mem_filter.mp hp
  exact ⟨hm.1, by simpa using hm.2⟩

theorem filter_startIndex_eq :
    ∀ (l : List Period),
      l.Pairwise (fun a b => a.startIndex ≠ b.startIndex) →
      ∀ {s : Period}, s ∈ l →
        l.filter (fun q => q.startIndex == s.startIndex) = [s]
  | [], _, s, hs => by cases hs
  | a :: rest, hp, s, hs => by
    rcases List.pairwise_cons.mp hp with ⟨ha, hrest⟩
    rcases List.mem_cons.mp hs with rfl | hsr
    · have hnil : rest.filter (fun q => q.startIndex == s.startIndex) = [] := by
        refine List.filter_eq_nil_iff.mpr fun b hb => ?_
        simpa using (ha b hb).symm
      simp [List.filter_cons, hnil]
    · have hne : (a.startIndex == s.startIndex) = false := by
        simpa using ha s hsr
      simp [List.filter_cons, hne, filter_startIndex_eq rest hrest hsr]

theorem snowByStart_self {snowPeriods : List Period}
    (hdist : snowPeriods.Pairwise (fun a b => a.startIndex ≠ b.startIndex))
    {s : Period} (hs : s ∈ snowPeriods) :
    snowByStart snowPeriods s.startIndex = some s := by
  unfold snowByStart
  rw [filter_startIndex_eq snowPeriods hdist hs]
  rfl

theorem pushOf_mem {snowPeriods : List Period} {hourly : List HourlyEntry}
    {units : Units} {rain p : Period}
    (h : p ∈ pushOf snowPeriods hourly units rain) :
    p.startIndex = rain.startIndex ∧ (p ∈ snowPeriods ∨ p = rain) := by
  unfold pushOf at h
  cases hsb : snowByStart snowPeriods rain.startIndex with
  | none =>
    simp only [hsb] at h
    by_cases hc : (optPosB rain.amount &&
        !(isFreezingAt hourly units rain.startIndex)) = true
    · rw [if_pos hc] at h
      rcases List.mem_singleton.mp h with rfl
      exact ⟨rfl, Or.inr rfl⟩
    · rw [if_neg hc] at h
      cases h
  | some snow =>
    simp only [hsb] at h
    obtain ⟨hmem, hidx⟩ := snowByStart_mem hsb
    by_cases hpos : optPosB snow.amount = true
    · rw [if_pos hpos] at h
      rcases List.mem_singleton.mp h with rfl
      exact ⟨hidx, Or.inl hmem⟩
    · rw [if_neg hpos] at h
      by_cases hc : (optPosB rain.amount &&
          !(isFreezingAt hourly units rain.startIndex)) = true
      · rw [if_pos hc] at h
        rcases List.mem_singleton.mp h with rfl
        exact ⟨rfl, Or.inr rfl⟩
      · rw [if_neg hc] at h
        cases h

theorem pushOf_pos_snow {snowPeriods : List Period}
    {hourly : List HourlyEntry} {units : Units} {rain snow : Period}
    (hsb : snowByStart snowPeriods rain.startIndex = some snow)
    (hpos : optPosB snow.amount = true) :
    pushOf snowPeriods hourly units rain = [snow] := by
  unfold pushOf
  rw [hsb]
  simp [hpos]

theorem pushOf_no_pos_snow {snowPeriods : List Period}
    {hourly : List HourlyEntry} {units : Units} {rain : Period}
    (hnos : ∀ s ∈ snowPeriods, s.startIndex = rain.startIndex →
      optPosB s.amount = false) :
    pushOf snowPeriods hourly units rain =
      (if optPosB rain.amount &&
          !(isFreezingAt hourly units rain.startIndex) then [rain] else []) := by
  unfold pushOf
  cases hsb : snowByStart snowPeriods rain.startIndex with
  | none => rfl
  | some snow =>
    obtain ⟨hmem, hidx⟩ := snowByStart_mem hsb
    simp [hnos snow hmem hidx]

theorem mem_used_of {snowPeriods rainPeriods : List Period} {rain : Period}
    (hrain : rain ∈ rainPeriods) {snow : Period}
    (hsb : snowByStart snowPeriods rain.startIndex = some snow)
    (hpos : optPosB snow.amount = true) :
    rain.startIndex ∈ rainPeriods.flatMap (usedOf snowPeriods) :=
  List.mem_flatMap.mpr ⟨rain, hrain, by unfold usedOf; rw [hsb]; simp [hpos]⟩

theorem used_subset {snowPeriods rainPeriods : List Period} {i : Int}
    (h : i ∈ rainPeriods.flatMap (usedOf snowPeriods)) :
    ∃ rain ∈ rainPeriods, rain.startIndex = i ∧
      ∃ snow, snowByStart snowPeriods rain.startIndex = some snow ∧
        optPosB snow.amount = true := by
  obtain ⟨rain, hrain, hi⟩ := List.mem_flatMap.mp h
  unfold usedOf at hi
  cases hsb : snowByStart snowPeriods rain.startIndex with
  | none => simp only [hsb] at hi; cases hi
  | some snow =>
    simp only [hsb] at hi
    by_cases hpos : optPosB snow.amount = true
    · rw [if_pos hpos] at hi
      exact ⟨rain, hrain, (List.mem_singleton.mp hi).symm, snow, hsb, hpos⟩
    · rw [if_neg hpos] at hi
      cases hi

/-- C10: every period in the Precipitation Period Merger's output is one
of its input liquid or frozen periods with all fields unchanged — the
merger only selects and drops periods, it never constructs a new period
or modifies a field. -/
theorem merge_frame (rainPeriods snowPeriods : List Period)
    (hourly : List HourlyEntry) (units : Units) :
    ∀ p ∈ mergePrecipitationPeriods rainPeriods snowPeriods hourly units,
      p ∈ rainPeriods ∨ p ∈ snowPeriods := by
  intro p hp
  rw [merge_eq] at hp
  rcases List.mem_append.mp hp with h | h
  · obtain ⟨rain, hrain, hpp⟩ := List.mem_flatMap.mp h
    rcases (pushOf_mem hpp).2 with h' | rfl
    · exact Or.inr h'
    · exact Or.inl hrain
  · exact Or.inr (List.mem_filter.mp h).1

/-- Witness: at a concrete input, the (only) merged period is one of
the inputs. -/
theorem merge_frame_witness :
    rEx ∈ ([rEx] : List Period) ∨ rEx ∈ ([] : List Period) :=
  merge_frame [rEx] [] [] Units.imperial rEx (by
    simp [mergePrecipitationPeriods, mergeStep, snowByStart, optPosB,
      isFreezingAt, hourlyTempAt, rEx])

/-- Counterexample to C1 as stated: with two frozen periods sharing
startIndex 5 (both positive) and a liquid period there, the quantified
frozen period `sEx` shares the liquid `rEx`'s startIndex and has
positive amount, yet is absent from the merged output — only the later
frozen period at that startIndex survives. -/
theorem merge_prefers_frozen_cex :
    rEx.startIndex = sEx.startIndex ∧ optPosB rEx.amount = true ∧
    optPosB sEx.amount = true ∧
    sEx ∉ mergePrecipitationPeriods [rEx] [sEx, sEx'] [] Units.imperial := by
  refine ⟨rfl, by simp [rEx, optPosB], by simp [sEx, optPosB], ?_⟩
  have e : mergePrecipitationPeriods [rEx] [sEx, sEx'] [] Units.imperial =
      [sEx'] := by
    simp [mergePrecipitationPeriods, mergeStep, snowByStart, optPosB,
      isFreezingAt, hourlyTempAt, rEx, sEx, sEx', List.filter]
  rw [e]
  simp [sEx, sEx']

/-- C1 (amended): provided no two frozen periods share a startIndex, for
every liquid period and frozen period sharing a startIndex, both with
positive amount, the merged output contains that frozen period and not
the liquid one. -/
theorem merge_prefers_frozen (rainPeriods snowPeriods : List Period)
    (hourly : List HourlyEntry) (units : Units) (r s : Period)
    (hr : r ∈ rainPeriods) (hs : s ∈ snowPeriods)
    (hidx : s.startIndex = r.startIndex)
    (hrpos : optPosB r.amount = true) (hspos : optPosB s.amount = true)
    (hdist : snowPeriods.Pairwise (fun a b => a.startIndex ≠ b.startIndex))
    (hrt : r.type = PKind.rain)
    (hst : ∀ p ∈ snowPeriods, p.type = PKind.snow) :
    s ∈ mergePrecipitationPeriods rainPeriods snowPeriods hourly units ∧
      r ∉ mergePrecipitationPeriods rainPeriods snowPeriods hourly units := by
  have hsb : snowByStart snowPeriods r.startIndex = some s := by
    rw [← hidx]; exact snowByStart_self hdist hs
  constructor
  · rw [merge_eq]
    refine List.mem_append.mpr (Or.inl (List.mem_flatMap.mpr ⟨r, hr, ?_⟩))
    rw [pushOf_pos_snow hsb hspos]
    simp
  · rw [merge_eq]
    intro hmem
    rcases List.mem_append.mp hmem with h | h
    · obtain ⟨rain, hrain, hpp⟩ := List.mem_flatMap.mp h
      rcases (pushOf_mem hpp).2 with hmem' | rfl
      · have ht := hst r hmem'
        rw [hrt] at ht
        cases ht
      · rw [pushOf_pos_snow hsb hspos] at hpp
        have h₂ := List.mem_singleton.mp hpp
        have ht := hst s hs
        rw [← h₂, hrt] at ht
        cases ht
    · have ht := hst r (List.mem_filter.mp h).1
      rw [hrt] at ht
      cases ht

/-- Witness: at a concrete input with one positive liquid and one
positive frozen period sharing startIndex 5, the merged output contains
the frozen one and not the liquid one. -/
theorem merge_prefers_frozen_witness :
    sEx ∈ mergePrecipitationPeriods [rEx] [sEx] [] Units.imperial ∧
      rEx ∉ mergePrecipitationPeriods [rEx] [sEx] [] Units.imperial :=
  merge_prefers_frozen [rEx] [sEx] [] Units.imperial rEx sEx (by simp)
    (by simp) (by simp [rEx, sEx]) (by simp [rEx, optPosB])
    (by simp [sEx, optPosB]) (by simp) (by simp [rEx]) (by simp [sEx])

theorem isFreezingAt_iff (hourly : List HourlyEntry) (units : Units)
    (idx : Int) :
    isFreezingAt hourly units idx = true ↔
      ∃ t, hourlyTempAt hourly idx = some t ∧ t ≤ freezingPointOf units := by
  unfold isFreezingAt
  cases h : hourlyTempAt hourly idx <;> simp [h]

/-- C2: a liquid period with positive amount, at whose startIndex no
frozen period has positive amount, is dropped from the merged output
exactly when the looked-up temperature at that startIndex is known and
at or below the freezing point (32 imperial, 0 metric), and emitted
otherwise. -/
theorem merge_freeze_suppression (rainPeriods snowPeriods : List Period)
    (hourly : List HourlyEntry) (units : Units) (r : Period)
    (hr : r ∈ rainPeriods) (hrpos : optPosB r.amount = true)
    (hnos : ∀ s ∈ snowPeriods, s.startIndex = r.startIndex →
      optPosB s.amount = false)
    (hrt : r.type = PKind.rain)
    (hst : ∀ p ∈ snowPeriods, p.type = PKind.snow) :
    ((∃ t, hourlyTempAt hourly r.startIndex = some t ∧
        t ≤ freezingPointOf units) →
      r ∉ mergePrecipitationPeriods rainPeriods snowPeriods hourly units) ∧
    ((∀ t, hourlyTempAt hourly r.startIndex = some t →
        freezingPointOf units < t) →
      r ∈ mergePrecipitationPeriods rainPeriods snowPeriods hourly units) := by
  constructor
  · intro hfr hmem
    have hfrz : isFreezingAt hourly units r.startIndex = true :=
      (isFreezingAt_iff hourly units r.startIndex).mpr hfr
    rw [merge_eq] at hmem
    rcases List.mem_append.mp hmem with h | h
    · obtain ⟨rain, hrain, hpp⟩ := List.mem_flatMap.mp h
      rcases (pushOf_mem hpp).2 with hmem' | rfl
      · have ht := hst r hmem'
        rw [hrt] at ht
        cases ht
      · rw [pushOf_no_pos_snow hnos] at hpp
        simp [hfrz] at hpp
    · have ht := hst r (List.mem_filter.mp h).1
      rw [hrt] at ht
      cases ht
  · intro hwarm
    have hfrz : isFreezingAt hourly units r.startIndex = false := by
      cases hb : isFreezingAt hourly units r.startIndex
      · rfl
      · obtain ⟨t, ht, hle⟩ :=
          (isFreezingAt_iff hourly units r.startIndex).mp hb
        exact absurd hle (not_le.mpr (hwarm t ht))
    rw [merge_eq]
    refine List.mem_append.mpr (Or.inl (List.mem_flatMap.mpr ⟨r, hr, ?_⟩))
    rw [pushOf_no_pos_snow hnos]
    simp [hfrz, hrpos]

/-- Witness: a positive liquid period at startIndex 5, no frozen
periods, and an imperial temperature of 30 at index 5: the period is
dropped. -/
theorem merge_freeze_suppression_witness :
    rEx ∉ mergePrecipitationPeriods [rEx] [] hourlyEx Units.imperial :=
  (merge_freeze_suppression [rEx] [] hourlyEx Units.imperial rEx (by simp)
    (by simp [rEx, optPosB]) (by simp) (by simp [rEx]) (by simp)).1
    ⟨30, by decide, by decide⟩

theorem pushOf_cases (snowPeriods : List Period) (hourly : List HourlyEntry)
    (units : Units) (rain : Period) :
    pushOf snowPeriods hourly units rain = [] ∨
      ∃ p, pushOf snowPeriods hourly units rain = [p] := by
  unfold pushOf
  cases hsb : snowByStart snowPeriods rain.startIndex with
  | none =>
    simp only [hsb]
    by_cases hc : (optPosB rain.amount &&
        !(isFreezingAt hourly units rain.startIndex)) = true
    · exact Or.inr ⟨rain, by rw [if_pos hc]⟩
    · exact Or.inl (by rw [if_neg hc])
  | some snow =>
    simp only [hsb]
    by_cases hpos : optPosB snow.amount = true
    · exact Or.inr ⟨snow, by rw [if_pos hpos]⟩
    · by_cases hc : (optPosB rain.amount &&
          !(isFreezingAt hourly units rain.startIndex)) = true
      · exact Or.inr ⟨rain, by rw [if_neg hpos, if_pos hc]⟩
      · exact Or.inl (by rw [if_neg hpos, if_neg hc])

theorem pairwise_flatMap_pushOf (snowPeriods : List Period)
    (hourly : List HourlyEntry) (units : Units) :
    ∀ (rainPeriods : List Period),
      rainPeriods.Pairwise (fun a b => a.startIndex ≠ b.startIndex) →
      (rainPeriods.flatMap (pushOf snowPeriods hourly units)).Pairwise
        (fun a b => a.startIndex ≠ b.startIndex)
  | [], _ => by simp
  | rain :: rest, hp => by
    rcases List.pairwise_cons.mp hp with ⟨ha, hrest⟩
    rw [List.flatMap_cons, List.pairwise_append]
    refine ⟨?_, pairwise_flatMap_pushOf snowPeriods hourly units rest hrest,
      ?_⟩
    · rcases pushOf_cases snowPeriods hourly units rain with he | ⟨p, he⟩ <;>
        simp [he]
    · intro x hx y hy
      obtain ⟨rain', hrain', hy'⟩ := List.mem_flatMap.mp hy
      rw [(pushOf_mem hx).1, (pushOf_mem hy').1]
      exact ha rain' hrain'

/-- C3 (amended): provided the liquid periods have pairwise-distinct
startIndexes and likewise the frozen periods, no two periods in the
merged output share a startIndex. -/
theorem merge_unique_startIndex (rainPeriods snowPeriods : List Period)
    (hourly : List HourlyEntry) (units : Units)
    (hr : rainPeriods.Pairwise (fun a b => a.startIndex ≠ b.startIndex))
    (hs : snowPeriods.Pairwise (fun a b => a.startIndex ≠ b.startIndex)) :
    (mergePrecipitationPeriods rainPeriods snowPeriods hourly
        units).Pairwise (fun a b => a.startIndex ≠ b.startIndex) := by
  rw [merge_eq, List.pairwise_append]
  refine ⟨pairwise_flatMap_pushOf snowPeriods hourly units rainPeriods hr,
    List.Pairwise.filter _ hs, ?_⟩
  intro a ha b hb heq
  obtain ⟨rain, hrain, hpa⟩ := List.mem_flatMap.mp ha
  have hmf := List.mem_filter.mp hb
  have hbs : b ∈ snowPeriods := hmf.1
  have hcond := hmf.2
  rw [Bool.and_eq_true] at hcond
  have hiff : ((rainPeriods.flatMap (usedOf snowPeriods)).contains
      b.startIndex) = true ↔
      b.startIndex ∈ rainPeriods.flatMap (usedOf snowPeriods) := by
    simp [List.contains_iff_exists_mem_beq]
  have hnotused : b.startIndex ∉ rainPeriods.flatMap (usedOf snowPeriods) := by
    intro hmem
    have hc := hcond.1
    rw [hiff.mpr hmem] at hc
    simp at hc
  have haidx := (pushOf_mem hpa).1
  have hbidx : b.startIndex = rain.startIndex := by rw [← heq, haidx]
  unfold pushOf at hpa
  cases hsb : snowByStart snowPeriods rain.startIndex with
  | none =>
    have hself := snowByStart_self hs hbs
    rw [hbidx, hsb] at hself
    cases hself
  | some snow =>
    by_cases hpos : optPosB snow.amount = true
    · exact hnotused (by rw [hbidx]; exact mem_used_of hrain hsb hpos)
    · have hself := snowByStart_self hs hbs
      rw [hbidx, hsb] at hself
      have hb2 : snow = b := Option.some.inj hself
      rw [hb2] at hpos
      exact hpos hcond.2

/-- Counterexample to C3 as stated: two identical positive liquid
periods at startIndex 0 (and no frozen periods) are both emitted, so the
merged output carries two periods with the same startIndex. -/
theorem merge_unique_startIndex_cex :
    mergePrecipitationPeriods [rEx0, rEx0] [] [] Units.imperial =
      [rEx0, rEx0] ∧
    ¬ ([rEx0, rEx0].Pairwise fun a b : Period =>
        a.startIndex ≠ b.startIndex) := by
  constructor
  · simp [mergePrecipitationPeriods, mergeStep, snowByStart, optPosB,
      isFreezingAt, hourlyTempAt, rEx0]
  · simp

/-- Witness: with distinct startIndexes on each side, the merged output
has pairwise-distinct startIndexes. -/
theorem merge_unique_startIndex_witness :
    (mergePrecipitationPeriods [rEx0] [sEx] [] Units.imperial).Pairwise
      (fun a b => a.startIndex ≠ b.startIndex) :=
  merge_unique_startIndex [rEx0] [sEx] [] Units.imperial (by simp) (by simp)

/-! ## Hourly Sampler lemmas -/

theorem find?_first {α : Type} (p : α → Bool) (l₁ : List α) (it : α)
    (l₂ : List α) (hit : p it = true) (hl : ∀ j ∈ l₁, p j = false) :
    (l₁ ++ it :: l₂).find? p = some it := by
  induction l₁ with
  | nil =>
    rw [List.nil_append]
    exact List.find?_cons_of_pos l₂ hit
  | cons j l₁ ih =>
    rw [List.cons_append, List.find?_cons_of_neg]
    · exact ih fun x hx => hl x (List.mem_cons_of_mem j hx)
    · simp [hl j (List.mem_cons_self j l₁)]

theorem foldl_closest_unchanged (target : Int) :
    ∀ (l : List Sample) (acc : Option ℚ), (∀ j ∈ l, ¬ j.time ≤ target) →
      l.foldl (fun closest it =>
        if it.time ≤ target then it.value else closest) acc = acc
  | [], acc, _ => rfl
  | j :: l, acc, h => by
    rw [List.foldl_cons, if_neg (h j (List.mem_cons_self j l))]
    exact foldl_closest_unchanged target l acc
      fun x hx => h x (List.mem_cons_of_mem j hx)

theorem foldl_closest_last (target : Int) (l₁ : List Sample) (it : Sample)
    (l₂ : List Sample) (hit : it.time ≤ target)
    (hl₂ : ∀ j ∈ l₂, ¬ j.time ≤ target) (acc : Option ℚ) :
    (l₁ ++ it :: l₂).foldl
      (fun closest s => if s.time ≤ target then s.value else closest) acc =
      it.value := by
  rw [List.foldl_append, List.foldl_cons, if_pos hit]
  exact foldl_closest_unchanged target l₂ it.value hl₂

/-- C5: the Hourly Sampler returns the value of the first sample whose
interval [time, time + 1h) contains the target; failing that, the value
of the last sample whose instant is ≤ the target; and null when the
sequence is empty or every sample's instant is after the target. -/
theorem findValueAtTime_spec (vs : List Sample) (target : Int) :
    (∀ l₁ it l₂, vs = l₁ ++ it :: l₂ →
      (it.time ≤ target ∧ target < it.time + 3600000) →
      (∀ j ∈ l₁, ¬ (j.time ≤ target ∧ target < j.time + 3600000)) →
      findValueAtTime vs target = it.value) ∧
    ((∀ it ∈ vs, ¬ (it.time ≤ target ∧ target < it.time + 3600000)) →
      ∀ l₁ it l₂, vs = l₁ ++ it :: l₂ → it.time ≤ target →
        (∀ j ∈ l₂, ¬ j.time ≤ target) →
        findValueAtTime vs target = it.value) ∧
    ((vs = [] ∨ ∀ it ∈ vs, target < it.time) →
      findValueAtTime vs target = none) := by
  refine ⟨?_, ?_, ?_⟩
  · intro l₁ it l₂ hvs hit hl₁
    have hfind : vs.find? (fun s => decide (s.time ≤ target) &&
        decide (target < s.time + 3600000)) = some it := by
      rw [hvs]
      apply find?_first
      · simp [hit.1, hit.2]
      · intro j hj
        simpa [not_and_or] using hl₁ j hj
    unfold findValueAtTime
    simp only [hfind]
  · intro hno l₁ it l₂ hvs hit hl₂
    have hfind : vs.find? (fun s => decide (s.time ≤ target) &&
        decide (target < s.time + 3600000)) = none := by
      rw [List.find?_eq_none]
      intro x hx
      simpa using hno x hx
    unfold findValueAtTime
    simp only [hfind]
    rw [hvs]
    exact foldl_closest_last target l₁ it l₂ hit hl₂ none
  · intro h
    rcases h with rfl | hall
    · rfl
    · have hfind : vs.find? (fun s => decide (s.time ≤ target) &&
          decide (target < s.time + 3600000)) = none := by
        rw [List.find?_eq_none]
        intro x hx
        simp [not_le.mpr (hall x hx)]
      unfold findValueAtTime
      simp only [hfind]
      exact foldl_closest_unchanged target vs none
        fun x hx => not_le.mpr (hall x hx)

/-- Witness: samples at hours 0 and 6 valued 10 and 20 — hour 3
forward-fills to 10, hour 6 matches exactly to 20, hour −1 yields
null. -/
theorem findValueAtTime_spec_witness :
    findValueAtTime demoSamples 10800000 = some 10 ∧
    findValueAtTime demoSamples 21600000 = some 20 ∧
    findValueAtTime demoSamples (-3600000) = none := by
  refine ⟨?_, ?_, ?_⟩
  · exact (findValueAtTime_spec demoSamples 10800000).2.1 (by decide)
      [] ⟨0, some 10⟩ [⟨21600000, some 20⟩] rfl (by decide) (by decide)
  · exact (findValueAtTime_spec demoSamples 21600000).1
      [⟨0, some 10⟩] ⟨21600000, some 20⟩ [] rfl (by decide) (by decide)
  · exact (findValueAtTime_spec demoSamples (-3600000)).2.2
      (Or.inr (by decide))

/-- C8 (code bug): at a target hour whose sampled temperature is absent
(`findValueAtTime` returns null), the imperial path propagates null into
the built HourlySample, but the metric path computes
`Math.round(null)`, which JS coerces to 0 — the entry carries
`temp = some 0`, not null. -/
theorem metric_missing_sample_is_zero :
    findValueAtTime [] 0 = none ∧
    (buildHourly Units.metric 0 1 [] [] [] [] []).map (fun e => e.temp) =
      [some 0] ∧
    (buildHourly Units.imperial 0 1 [] [] [] [] []).map (fun e => e.temp) =
      [none] := by
  refine ⟨rfl, ?_, ?_⟩
  · simp [buildHourly, buildHourlyEntry, mathRoundJS, celsiusToFahrenheit,
      findValueAtTime, jsRound, List.range_succ]
    norm_num
  · simp [buildHourly, buildHourlyEntry, mathRoundJS, celsiusToFahrenheit,
      findValueAtTime, jsRound, List.range_succ]

/-! ## Precipitation Period Extractor lemmas -/

theorem extractRecord_nonzero {dateOf : String → Int}
    {startHour endTime : Int} {units : Units} {type : PKind}
    {item : RawRecord} {block : List Period}
    (h : extractRecord dateOf startHour endTime units type item =
      some block) :
    ∀ p ∈ block, p.amount_mm ≠ some 0 := by
  intro p hp
  unfold extractRecord at h
  by_cases hskip : (jsTruthyStr item.validTime = false ||
      item.value == some 0) = true
  · rw [if_pos hskip] at h
    rcases Option.some.inj h with rfl
    cases hp
  · rw [if_neg hskip] at h
    have hval : item.value ≠ some 0 := by
      simp only [Bool.or_eq_true, beq_iff_eq, not_or] at hskip
      exact fun hc => hskip.2 hc
    cases hdur : durStrOf item with
    | none => simp [hdur] at h
    | some d =>
      simp only [hdur] at h
      by_cases hout : (dateOf (startStrOf item) +
            (parseDuration d : Int) * 3600000 ≤ startHour ∨
          endTime ≤ dateOf (startStrOf item))
      · rw [if_pos hout] at h
        rcases Option.some.inj h with rfl
        cases hp
      · rw [if_neg hout] at h
        rcases Option.some.inj h with rfl
        rcases List.mem_singleton.mp hp with rfl
        simpa using hval

theorem extractLoop_nonzero {dateOf : String → Int}
    {startHour endTime : Int} {units : Units} {type : PKind} :
    ∀ {values : List RawRecord} {out : List Period},
      extractLoop dateOf startHour endTime units type values = some out →
      ∀ p ∈ out, p.amount_mm ≠ some 0
  | [], out, h, p, hp => by
    rcases Option.some.inj h with rfl
    cases hp
  | item :: rest, out, h, p, hp => by
    simp only [extractLoop, Option.pure_def, Option.bind_eq_bind] at h
    cases hr : extractRecord dateOf startHour endTime units type item with
    | none => rw [hr] at h; cases h
    | some block =>
      rw [hr, Option.some_bind] at h
      cases ht : extractLoop dateOf startHour endTime units type rest with
      | none => rw [ht] at h; cases h
      | some tail =>
        rw [ht, Option.some_bind] at h
        rcases Option.some.inj h with rfl
        rcases List.mem_append.mp hp with hb | hb
        · exact extractRecord_nonzero hr p hb
        · exact extractLoop_nonzero ht p hb

/-- C7 (amended): every period emitted by the Precipitation Period
Extractor has raw value different from 0 — the code filters only
`value === 0`, so negative or null raw values still reach the
merger. -/
theorem extract_nonzero_amount (dateOf : String → Int)
    (values : List RawRecord) (now : Int) (hoursToShow : Nat)
    (units : Units) (type : PKind) (out : List Period)
    (hout : extractPrecipitationPeriods dateOf values now hoursToShow units
      type = some out) :
    ∀ p ∈ out, p.amount_mm ≠ some 0 :=
  extractLoop_nonzero hout

/-- Counterexample to C7 as stated: a record with negative raw value
inside the window is emitted as a period whose native amount is not
positive. -/
theorem extract_positive_cex :
    extractPrecipitationPeriods (fun _ => 0) [recNeg] 0 48 Units.metric
      PKind.rain = some [⟨0, 2, some (-1), some (-1), (0.25 : ℚ),
        Units.metric, PKind.rain⟩] ∧
    optPosB (some (-1 : ℚ)) = false := by
  constructor
  · simp [extractPrecipitationPeriods, extractRecord, recNeg, jsTruthyStr,
      durStrOf, startStrOf, splitOnSlash, startHourOf, parseDuration,
      scanPTH, tryPTH, digitsVal, displayThresholdFor, extractLoop]
  · norm_num [optPosB]

/-- Witness: the concretely extracted negative-value period indeed has
raw amount different from `some 0`. -/
theorem extract_nonzero_amount_witness :
    (⟨0, 2, some (-1), some (-1), (0.25 : ℚ), Units.metric, PKind.rain⟩ :
      Period).amount_mm ≠ some 0 :=
  extract_nonzero_amount (fun _ => 0) [recNeg] 0 48 Units.metric PKind.rain
    [⟨0, 2, some (-1), some (-1), (0.25 : ℚ), Units.metric, PKind.rain⟩]
    (by simp [extractPrecipitationPeriods, extractRecord, recNeg, jsTruthyStr,
      durStrOf, startStrOf, splitOnSlash, startHourOf, parseDuration,
      scanPTH, tryPTH, digitsVal, displayThresholdFor, extractLoop])
    _ (by simp)

/-! ## Fetch Orchestrator lemmas -/

theorem fetchData_success (f : Nat → Bool) (rc : Nat) (h : f rc = false) :
    fetchData f rc = [FetchEvent.dataDelivery] := by
  rw [fetchData.eq_def]
  simp [h]

theorem fetchData_fail_step (f : Nat → Bool) (rc : Nat) (h : f rc = true)
    (hlt : rc < maxRetries) :
    fetchData f rc =
      FetchEvent.retryWait (retryDelayMs * 2 ^ rc) ::
        fetchData f (rc + 1) := by
  rw [fetchData.eq_def]
  simp [h, hlt]

theorem fetchData_fail_last (f : Nat → Bool) (rc : Nat) (h : f rc = true)
    (hge : ¬ rc < maxRetries) :
    fetchData f rc = [FetchEvent.errorDelivery] := by
  rw [fetchData.eq_def]
  simp [h, hge]

theorem counts_cons_wait (d : Nat) (l : List FetchEvent) :
    errorCount (FetchEvent.retryWait d :: l) = errorCount l ∧
    dataCount (FetchEvent.retryWait d :: l) = dataCount l := by
  simp [errorCount, dataCount]

theorem fetch_counts_aux (f : Nat → Bool) :
    ∀ (k rc : Nat), maxRetries - rc = k → rc ≤ maxRetries →
      ((errorCount (fetchData f rc) = 1 ∧ dataCount (fetchData f rc) = 0) ↔
        ∀ i, rc ≤ i → i ≤ maxRetries → f i = true)
  | 0, rc, hk, hle => by
    have hrc : rc = maxRetries := by omega
    subst hrc
    cases hf : f maxRetries with
    | false =>
      rw [fetchData_success f maxRetries hf]
      constructor
      · intro hc
        simp [errorCount, dataCount] at hc
      · intro hall
        have hcontra := hall maxRetries le_rfl le_rfl
        rw [hf] at hcontra
        cases hcontra
    | true =>
      rw [fetchData_fail_last f maxRetries hf (by omega)]
      constructor
      · intro _ i h1 h2
        have hieq : i = maxRetries := by omega
        subst hieq
        exact hf
      · intro _
        simp [errorCount, dataCount]
  | k + 1, rc, hk, hle => by
    have hlt : rc < maxRetries := by omega
    cases hf : f rc with
    | false =>
      rw [fetchData_success f rc hf]
      constructor
      · intro hc
        simp [errorCount, dataCount] at hc
      · intro hall
        have hcontra := hall rc le_rfl (by omega)
        rw [hf] at hcontra
        cases hcontra
    | true =>
      rw [fetchData_fail_step f rc hf hlt]
      have hc := counts_cons_wait (retryDelayMs * 2 ^ rc) (fetchData f (rc + 1))
      rw [hc.1, hc.2]
      rw [fetch_counts_aux f k (rc + 1) (by omega) (by omega)]
      constructor
      · intro hall i h1 h2
        rcases Nat.eq_or_lt_of_le h1 with rfl | h1'
        · exact hf
        · exact hall i (by omega) h2
      · intro hall i h1 h2
        exact hall i (by omega) h2

/-- C9 (amended): every failing attempt before the retry ceiling
schedules a retry whose delay doubles per attempt (5000·2^rc ms), and
exactly one error delivery with zero data deliveries occurs precisely
when the initial attempt and all three retries — four attempts in
total — fail. -/
theorem fetch_retry_spec (attemptFails : Nat → Bool) :
    (∀ rc, attemptFails rc = true → rc < maxRetries →
      fetchData attemptFails rc =
        FetchEvent.retryWait (retryDelayMs * 2 ^ rc) ::
          fetchData attemptFails (rc + 1)) ∧
    ((errorCount (fetchData attemptFails 0) = 1 ∧
        dataCount (fetchData attemptFails 0) = 0) ↔
      ∀ i, i ≤ maxRetries → attemptFails i = true) := by
  constructor
  · exact fun rc h hlt => fetchData_fail_step attemptFails rc h hlt
  · rw [fetch_counts_aux attemptFails maxRetries 0 rfl (by omega)]
    constructor
    · intro hall i h2
      exact hall i (Nat.zero_le i) h2
    · intro hall i _ h2
      exact hall i h2

/-- Witness: when every attempt fails, exactly one error delivery and
zero data deliveries occur. -/
theorem fetch_retry_spec_witness :
    errorCount (fetchData (fun _ => true) 0) = 1 ∧
      dataCount (fetchData (fun _ => true) 0) = 0 :=
  (fetch_retry_spec (fun _ => true)).2.mpr (fun i _ => rfl)

/-- Counterexample to C9's "three consecutive failures" scenario: when
the first three attempts fail and the fourth succeeds, the invocation
delivers data once and no error. -/
theorem fetch_retry_cex :
    fetchData failsThree 0 =
      [FetchEvent.retryWait 5000, FetchEvent.retryWait 10000,
        FetchEvent.retryWait 20000, FetchEvent.dataDelivery] ∧
    dataCount (fetchData failsThree 0) = 1 ∧
    errorCount (fetchData failsThree 0) = 0 := by
  have e : fetchData failsThree 0 =
      [FetchEvent.retryWait 5000, FetchEvent.retryWait 10000,
        FetchEvent.retryWait 20000, FetchEvent.dataDelivery] := by
    rw [fetchData_fail_step failsThree 0 (by decide) (by decide),
      fetchData_fail_step failsThree 1 (by decide) (by decide),
      fetchData_fail_step failsThree 2 (by decide) (by decide),
      fetchData_success failsThree 3 (by decide)]
    decide
  refine ⟨e, ?_, ?_⟩ <;> rw [e] <;> decide

/-! ## Duration Decoder lemmas -/

theorem digitChar_isDigit {d : Nat} (hd : d < 10) :
    (digitChar d).isDigit = true := by
  interval_cases d <;> decide

theorem digitChar_toNat {d : Nat} (hd : d < 10) :
    (digitChar d).toNat - 48 = d := by
  interval_cases d <;> decide

theorem natChars_digits (n : Nat) : ∀ c ∈ natChars n, c.isDigit = true := by
  intro c hc
  unfold natChars at hc
  by_cases hn : n = 0
  · rw [if_pos hn] at hc
    rcases List.mem_singleton.mp hc with rfl
    decide
  · rw [if_neg hn] at hc
    rw [List.mem_reverse] at hc
    obtain ⟨d, hd, rfl⟩ := List.mem_map.mp hc
    exact digitChar_isDigit (Nat.digits_lt_base (by norm_num) hd)

theorem natChars_ne_nil (n : Nat) : natChars n ≠ [] := by
  unfold natChars
  by_cases hn : n = 0
  · rw [if_pos hn]
    simp
  · rw [if_neg hn]
    simp [Nat.digits_ne_nil_iff_ne_zero, hn]

theorem digitsVal_append_last (xs : List Char) (c : Char) :
    digitsVal (xs ++ [c]) = digitsVal xs * 10 + (c.toNat - 48) := by
  unfold digitsVal
  rw [List.foldl_append]
  rfl

theorem digitsVal_rev_map :
    ∀ (L : List Nat), (∀ d ∈ L, d < 10) →
      digitsVal ((L.map digitChar).reverse) = Nat.ofDigits 10 L
  | [], _ => by simp [digitsVal, Nat.ofDigits_nil]
  | d :: L, h => by
    rw [List.map_cons, List.reverse_cons, digitsVal_append_last,
      digitsVal_rev_map L (fun x hx => h x (List.mem_cons_of_mem d hx)),
      digitChar_toNat (h d (List.mem_cons_self d L)), Nat.ofDigits_cons]
    ring

theorem digitsVal_natChars (n : Nat) : digitsVal (natChars n) = n := by
  unfold natChars
  by_cases hn : n = 0
  · rw [if_pos hn, hn]
    decide
  · rw [if_neg hn,
      digitsVal_rev_map _ (fun d hd => Nat.digits_lt_base (by norm_num) hd),
      Nat.ofDigits_digits]

theorem takeWhile_digits_append (ds rest : List Char)
    (hds : ∀ c ∈ ds, c.isDigit = true) :
    (ds ++ 'H' :: rest).takeWhile Char.isDigit = ds ∧
    (ds ++ 'H' :: rest).dropWhile Char.isDigit = 'H' :: rest := by
  induction ds with
  | nil =>
    rw [List.nil_append]
    constructor
    · rw [List.takeWhile_cons, if_neg (by decide)]
    · rw [List.dropWhile_cons, if_neg (by decide)]
  | cons c ds ih =>
    obtain ⟨htw, hdw⟩ := ih fun x hx => hds x (List.mem_cons_of_mem c hx)
    have hc : c.isDigit = true := hds c (List.mem_cons_self c ds)
    constructor
    · rw [List.cons_append, List.takeWhile_cons, if_pos hc, htw]
    · rw [List.cons_append, List.dropWhile_cons, if_pos hc, hdw]

theorem tryPTH_head_match (d : Char) (ds rest : List Char)
    (hds : ∀ c ∈ d :: ds, c.isDigit = true) :
    tryPTH ('P' :: 'T' :: ((d :: ds) ++ 'H' :: rest)) =
      some (digitsVal (d :: ds)) := by
  obtain ⟨htw, hdw⟩ := takeWhile_digits_append (d :: ds) rest hds
  simp only [tryPTH]
  rw [htw, hdw]
  simp

theorem scanPTH_of_tryPTH {l : List Char} {n : Nat}
    (h : tryPTH l = some n) : scanPTH l = some n := by
  cases l with
  | nil => cases h
  | cons c rest => simp [scanPTH, h]

theorem tryPTH_some_decomp {l : List Char} {n : Nat}
    (h : tryPTH l = some n) :
    ∃ ds post, l = 'P' :: 'T' :: ds ++ 'H' :: post ∧ ds ≠ [] ∧
      ∀ c ∈ ds, c.isDigit = true := by
  cases l with
  | nil => cases h
  | cons c₁ l₁ =>
    cases l₁ with
    | nil => cases h
    | cons c₂ rest =>
      simp only [tryPTH] at h
      by_cases hpt : c₁ = 'P' ∧ c₂ = 'T'
      · rw [if_pos hpt] at h
        obtain ⟨rfl, rfl⟩ := hpt
        cases htw : rest.takeWhile Char.isDigit with
        | nil => simp only [htw] at h; cases h
        | cons d ds =>
          simp only [htw] at h
          cases hdw : rest.dropWhile Char.isDigit with
          | nil => simp only [hdw] at h; cases h
          | cons c₃ tail =>
            simp only [hdw] at h
            by_cases hH : c₃ = 'H'
            · subst hH
              refine ⟨d :: ds, tail, ?_, by simp, ?_⟩
              · have hsplit :=
                  List.takeWhile_append_dropWhile (p := Char.isDigit)
                    (l := rest)
                rw [htw, hdw] at hsplit
                rw [← hsplit]
                simp
              · intro c hc
                exact List.mem_takeWhile_imp (htw ▸ hc)
            · rw [if_neg hH] at h
              cases h
      · rw [if_neg hpt] at h
        cases h

theorem scanPTH_some_decomp :
    ∀ (l : List Char) (n : Nat), scanPTH l = some n →
      ∃ pre ds post, l = pre ++ 'P' :: 'T' :: ds ++ 'H' :: post ∧
        ds ≠ [] ∧ ∀ c ∈ ds, c.isDigit = true
  | [], n, h => by cases h
  | c :: rest, n, h => by
    simp only [scanPTH] at h
    cases ht : tryPTH (c :: rest) with
    | some m =>
      obtain ⟨ds, post, heq, hne, hds⟩ := tryPTH_some_decomp ht
      exact ⟨[], ds, post, by simpa using heq, hne, hds⟩
    | none =>
      simp only [ht] at h
      obtain ⟨pre, ds, post, heq, hne, hds⟩ := scanPTH_some_decomp rest n h
      exact ⟨c :: pre, ds, post, by simp [heq], hne, hds⟩

/-- C4 (amended): every string of the exact form "PT<n>H" decodes to
exactly n, and every string containing no substring of the form
PT<digits>H decodes to 1; but a string of another grammar that does
contain such a substring (e.g. "PT2H30M") decodes to that substring's
hour count rather than 1, because the regex is unanchored. -/
theorem parseDuration_spec :
    (∀ n : Nat,
      parseDuration (String.mk ('P' :: 'T' :: (natChars n ++ ['H']))) = n) ∧
    (∀ s : String,
      (¬ ∃ pre ds post, s.data = pre ++ 'P' :: 'T' :: ds ++ 'H' :: post ∧
        ds ≠ [] ∧ ∀ c ∈ ds, c.isDigit = true) →
      parseDuration s = 1) := by
  constructor
  · intro n
    obtain ⟨d, ds, hnc⟩ := List.exists_cons_of_ne_nil (natChars_ne_nil n)
    have hds : ∀ c ∈ d :: ds, c.isDigit = true := by
      rw [← hnc]
      exact natChars_digits n
    show (scanPTH ('P' :: 'T' :: (natChars n ++ ['H']))).getD 1 = n
    rw [hnc, scanPTH_of_tryPTH (tryPTH_head_match d ds [] hds)]
    show digitsVal (d :: ds) = n
    rw [← hnc]
    exact digitsVal_natChars n
  · intro s hno
    unfold parseDuration
    cases hs : scanPTH s.data with
    | none => rfl
    | some m => exact absurd (scanPTH_some_decomp s.data m hs) hno

/-- Counterexample to C4 as stated: "PT2H30M" is not of the form
"PT<n>H", yet the decoder returns 2, not 1. -/
theorem parseDuration_cex :
    parseDuration "PT2H30M" = 2 ∧ (2 : Nat) ≠ 1 := by
  decide

/-- Witness: the canonical "PT6H" string decodes to 6, and "PT30M"
(no PT-digits-H substring) decodes to 1. -/
theorem parseDuration_spec_witness :
    parseDuration (String.mk ('P' :: 'T' :: (natChars 6 ++ ['H']))) = 6 ∧
    parseDuration "PT30M" = 1 := by
  constructor
  · exact parseDuration_spec.1 6
  · refine parseDuration_spec.2 "PT30M" ?_
    rintro ⟨pre, ds, post, heq, hne, hds⟩
    have hH : 'H' ∈ "PT30M".data := by
      rw [heq]
      simp
    exact absurd hH (by decide)

/-! ## Time Series Expander lemmas -/

theorem durStrOf_of_split {item : RawRecord} {s : String}
    (hvt : item.validTime = some s)
    (hlen : 2 ≤ (splitOnSlash s.data).length) :
    ∃ dstr, durStrOf item = some dstr := by
  have hlt : 1 < (splitOnSlash s.data).length := by omega
  refine ⟨String.mk ((splitOnSlash s.data).get ⟨1, hlt⟩), ?_⟩
  unfold durStrOf
  rw [hvt]
  simp only [Option.getD_some]
  rw [List.get?_eq_get hlt]
  rfl

/-- C6: when every record carries a non-empty validTime string whose
`/`-split has a duration component, the expander succeeds, its output
length is the sum of the records' decoded durations, and the output is
the in-order concatenation of per-record blocks whose samples carry the
record's value unchanged at hour offsets 0..duration−1 from the
record's start instant. -/
theorem expandTimeSeries_spec (dateOf : String → Int) :
    ∀ (values : List RawRecord),
      (∀ item ∈ values, ∃ s, item.validTime = some s ∧ s ≠ "" ∧
        2 ≤ (splitOnSlash s.data).length) →
      ∃ out, expandTimeSeries dateOf values = some out ∧
        out.length = (values.map (fun item =>
          parseDuration ((durStrOf item).getD ""))).sum ∧
        out = values.flatMap (fun item =>
          (List.range (parseDuration ((durStrOf item).getD ""))).map
            (fun h => ⟨dateOf (startStrOf item) + (h : Int) * 3600000,
              item.value⟩))
  | [] => fun _ => ⟨[], rfl, rfl, rfl⟩
  | item :: rest => fun hv => by
    obtain ⟨s, hvt, hne, hlen⟩ := hv item (List.mem_cons_self item rest)
    obtain ⟨out', h1, h2, h3⟩ := expandTimeSeries_spec dateOf rest
      (fun it hit => hv it (List.mem_cons_of_mem item hit))
    have htruthy : jsTruthyStr item.validTime = true := by
      rw [hvt]
      simp [jsTruthyStr, hne]
    obtain ⟨dstr, hdur⟩ := durStrOf_of_split hvt hlen
    have hrec : expandRecord dateOf item =
        some ((List.range (parseDuration dstr)).map
          (fun h => ⟨dateOf (startStrOf item) + (h : Int) * 3600000,
            item.value⟩)) := by
      unfold expandRecord
      rw [htruthy, if_neg (by simp)]
      simp only [hdur]
    refine ⟨(List.range (parseDuration dstr)).map
        (fun h => ⟨dateOf (startStrOf item) + (h : Int) * 3600000,
          item.value⟩) ++ out', ?_, ?_, ?_⟩
    · simp only [expandTimeSeries, Option.pure_def, Option.bind_eq_bind]
      rw [hrec, Option.some_bind, h1, Option.some_bind]
    · rw [List.length_append, h2]
      simp only [List.map_cons, List.sum_cons, hdur, Option.getD_some,
        List.length_map, List.length_range]
    · rw [List.flatMap_cons, h3]
      simp only [hdur, Option.getD_some]

/-- Witness: two well-formed records with durations 2 and 3 expand to a
5-sample sequence. -/
theorem expandTimeSeries_spec_witness :
    ∃ out, expandTimeSeries (fun _ => 0) [recA, recB] = some out ∧
      out.length = 5 := by
  have hv : ∀ item ∈ [recA, recB], ∃ s, item.validTime = some s ∧
      s ≠ "" ∧ 2 ≤ (splitOnSlash s.data).length := by
    intro item hit
    rcases List.mem_cons.mp hit with rfl | hit'
    · exact ⟨"A/PT2H", rfl, by decide, by decide⟩
    · rcases List.mem_cons.mp hit' with rfl | h0
      · exact ⟨"B/PT3H", rfl, by decide, by decide⟩
      · cases h0
  obtain ⟨out, h1, h2, h3⟩ := expandTimeSeries_spec (fun _ => 0) [recA, recB] hv
  exact ⟨out, h1, by rw [h2]; decide⟩

end WeatherGraph
